import Mathlib

/-!
Verification of the bounded-concurrency task processor
(`src/Node.js Profesional/Event Loop y Programación Asíncrona - Día 1/app.js`).

The JavaScript source is shallowly embedded: classes become structures,
methods become pure state-transition functions, timestamps (`Date.now()`)
become explicit `Nat` parameters, and the opaque asynchronous task bodies
become an explicit outcome parameter (`Except String α`).  File persistence
(`taskStorage.js`) is modeled by a `store` field holding the contents of the
backing file; `saveTasks` copies the in-memory list into that field.
-/

/-! ## Circuit breaker (`class CircuitBreaker`) -/

/-- The three states of the breaker's state machine (`this.state`). -/
inductive BState where
  | CLOSED
  | OPEN
  | HALF_OPEN
deriving DecidableEq, Repr

/-- State of `class CircuitBreaker`: constructor fields `failureThreshold`,
`recoveryTime`, `failures`, `state`, `nextAttempt`. -/
structure CircuitBreaker where
  failureThreshold : Nat
  recoveryTime : Nat
  failures : Nat
  state : BState
  nextAttempt : Nat
deriving DecidableEq, Repr

/-- `new CircuitBreaker(failureThreshold, recoveryTime)` at time `now`
(`this.nextAttempt = Date.now()`). -/
def CircuitBreaker.init (failureThreshold recoveryTime now : Nat) : CircuitBreaker :=
  { failureThreshold := failureThreshold
    recoveryTime := recoveryTime
    failures := 0
    state := .CLOSED
    nextAttempt := now }

/-- `CircuitBreaker._reset()`: `this.failures = 0; this.state = "CLOSED"`. -/
def CircuitBreaker.reset (cb : CircuitBreaker) : CircuitBreaker :=
  { cb with failures := 0, state := .CLOSED }

/-- `CircuitBreaker._fail()` at time `now`: `this.failures++`; if
`this.failures >= this.failureThreshold` then `this.state = "OPEN"` and
`this.nextAttempt = Date.now() + this.recoveryTime`. -/
def CircuitBreaker.recordFail (cb : CircuitBreaker) (now : Nat) : CircuitBreaker :=
  if cb.failureThreshold ≤ cb.failures + 1 then
    { cb with failures := cb.failures + 1, state := .OPEN
              nextAttempt := now + cb.recoveryTime }
  else
    { cb with failures := cb.failures + 1 }

/-- Result of one `CircuitBreaker.execute` call: the wrapped operation's
value, the rejection `throw new Error("Circuit breaker is OPEN")`, or the
re-thrown operation error. -/
inductive CBResult (α : Type) where
  | ok (a : α)
  | circuitOpen
  | opFailed (e : String)
deriving DecidableEq, Repr

/-- Observable outcome of one `CircuitBreaker.execute` call: the result, the
breaker state afterwards, and whether the wrapped operation `fn` was invoked
(the call counter of the spec's breaker property). -/
structure CBOutcome (α : Type) where
  result : CBResult α
  breaker : CircuitBreaker
  invoked : Bool
deriving DecidableEq, Repr

/-- `CircuitBreaker.execute(fn)` at time `now`, with the wrapped operation's
outcome passed in as `op`.  Mirrors the source: when `state === "OPEN"`, either
transition to `HALF_OPEN` (when `Date.now() > this.nextAttempt`) or throw
without running `fn`; otherwise run `fn`, calling `_reset` on success and
`_fail` (then rethrowing) on failure. -/
def CircuitBreaker.execute (cb : CircuitBreaker) (now : Nat)
    (op : Except String α) : CBOutcome α :=
  if cb.state = .OPEN ∧ now ≤ cb.nextAttempt then
    ⟨.circuitOpen, cb, false⟩
  else
    let cb1 := if cb.state = .OPEN then { cb with state := .HALF_OPEN } else cb
    match op with
    | .ok a => ⟨.ok a, cb1.reset, true⟩
    | .error e => ⟨.opFailed e, cb1.recordFail now, true⟩

/-- `n` consecutive calls of `CircuitBreaker.execute` with a failing wrapped
operation, all at time `t`. -/
def CircuitBreaker.failN (t : Nat) : Nat → CircuitBreaker → CircuitBreaker
  | 0, cb => cb
  | n + 1, cb =>
      ((CircuitBreaker.failN t n cb).execute t
        (Except.error "External service error" : Except String Unit)).breaker

/-- Breaker states reachable from a fresh breaker by `execute` calls. -/
inductive BReach : CircuitBreaker → Prop where
  | init (ft rt t0 : Nat) : BReach (CircuitBreaker.init ft rt t0)
  | step (cb : CircuitBreaker) (now : Nat) (op : Except String Nat)
      (h : BReach cb) : BReach (cb.execute now op).breaker

lemma CircuitBreaker.failN_closed (ft rt t0 t : Nat) :
    ∀ k, k < ft →
      CircuitBreaker.failN t k (CircuitBreaker.init ft rt t0) =
        { CircuitBreaker.init ft rt t0 with failures := k } := by
  intro k
  induction k with
  | zero => intro _; rfl
  | succ n ih =>
      intro hk
      have hn : n < ft := Nat.lt_of_succ_lt hk
      rw [CircuitBreaker.failN, ih hn]
      simp only [CircuitBreaker.execute, CircuitBreaker.init, CircuitBreaker.recordFail]
      have hns : ¬ ft ≤ n + 1 := by omega
      simp [hns]

lemma CircuitBreaker.failN_opens (ft rt t0 t : Nat) (hft : 1 ≤ ft) :
    CircuitBreaker.failN t ft (CircuitBreaker.init ft rt t0) =
      { failureThreshold := ft, recoveryTime := rt, failures := ft
        state := .OPEN, nextAttempt := t + rt } := by
  obtain ⟨m, rfl⟩ : ∃ m, ft = m + 1 := ⟨ft - 1, by omega⟩
  rw [CircuitBreaker.failN,
    CircuitBreaker.failN_closed (m + 1) rt t0 t m (Nat.lt_succ_self m)]
  simp only [CircuitBreaker.execute, CircuitBreaker.init, CircuitBreaker.recordFail]
  simp

/-- Key invariant of reachable breakers: the resting state is never
`HALF_OPEN` (it only exists transiently inside `execute`), and in state
`OPEN` the failure count has reached the threshold. -/
lemma BReach.open_state_invariant (cb : CircuitBreaker) (h : BReach cb) :
    cb.state ≠ .HALF_OPEN ∧ (cb.state = .OPEN → cb.failureThreshold ≤ cb.failures) := by
  induction h with
  | init ft rt t0 => simp [CircuitBreaker.init]
  | step cb now op h ih =>
      by_cases hrej : cb.state = .OPEN ∧ now ≤ cb.nextAttempt
      · simpa [CircuitBreaker.execute, hrej] using ih
      · rcases op with e | a
        · by_cases hop : cb.state = .OPEN
          · have hna : ¬ now ≤ cb.nextAttempt := fun hle => hrej ⟨hop, hle⟩
            have hcnt' : cb.failureThreshold ≤ cb.failures + 1 :=
              Nat.le_succ_of_le (ih.2 hop)
            simp [CircuitBreaker.execute, hop, hna, CircuitBreaker.recordFail, hcnt']
          · by_cases hthr : cb.failureThreshold ≤ cb.failures + 1
            · simp [CircuitBreaker.execute, hrej, hop, CircuitBreaker.recordFail, hthr]
            · simp [CircuitBreaker.execute, hrej, hop, CircuitBreaker.recordFail, hthr,
                ih.1]
        · by_cases hop : cb.state = .OPEN
          · have hna : ¬ now ≤ cb.nextAttempt := fun hle => hrej ⟨hop, hle⟩
            simp [CircuitBreaker.execute, hop, hna, CircuitBreaker.reset]
          · simp [CircuitBreaker.execute, hrej, hop, CircuitBreaker.reset]

/-! ## Concurrency admission controller (`class ConcurrencyManager`) -/

/-- A waiting entry of `this.queue`.  The source pushes
`{ fn, priority, resolve, reject }`; the opaque function and its resolution
channel are dropped and an arrival sequence number `seq` identifies the
request (assigned in arrival order by the reachability relation below). -/
structure Request where
  seq : Nat
  priority : Int
deriving DecidableEq, Repr

/-- Insert `x` into an accumulator list, placing it before the first element
of strictly smaller priority (hence after every element of priority ≥
`x.priority`). -/
def insertReq : List Request → Request → List Request
  | [], x => [x]
  | y :: ys, x =>
      if y.priority < x.priority then x :: y :: ys else y :: insertReq ys x

/-- `this.queue.sort((a, b) => b.priority - a.priority)`: a stable sort by
descending priority (JavaScript `Array.prototype.sort` is stable), realized
as left-to-right stable insertion. -/
def sortByPriorityDesc (l : List Request) : List Request :=
  l.foldl insertReq []

/-- State of `class ConcurrencyManager`: `maxConcurrent`, `queueLimit`,
`activeCount`, `queue`. -/
structure ConcurrencyManager where
  maxConcurrent : Nat
  queueLimit : Nat
  activeCount : Nat
  queue : List Request
deriving DecidableEq, Repr

/-- `new ConcurrencyManager(maxConcurrent, queueLimit)`. -/
def ConcurrencyManager.init (maxConcurrent queueLimit : Nat) : ConcurrencyManager :=
  { maxConcurrent := maxConcurrent, queueLimit := queueLimit
    activeCount := 0, queue := [] }

/-- Admission decision of `ConcurrencyManager.execute`: run `_run(fn)` now,
suspend in the queue, or `throw new Error("Task queue limit reached")`. -/
inductive AdmitResult where
  | started
  | enqueued
  | queueFull
deriving DecidableEq, Repr

/-- `ConcurrencyManager.execute(fn, priority)`, admission part.  If
`activeCount >= maxConcurrent`: reject when `queue.length >= queueLimit`,
otherwise push the request and re-sort the queue by descending priority.
Below the cap, `_run(fn)` starts at once, incrementing `activeCount`. -/
def ConcurrencyManager.execute (m : ConcurrencyManager) (x : Request) :
    AdmitResult × ConcurrencyManager :=
  if m.maxConcurrent ≤ m.activeCount then
    if m.queueLimit ≤ m.queue.length then
      (.queueFull, m)
    else
      (.enqueued, { m with queue := sortByPriorityDesc (m.queue ++ [x]) })
  else
    (.started, { m with activeCount := m.activeCount + 1 })

/-- The `finally` block of `ConcurrencyManager._run`: decrement
`activeCount`; if the queue is non-empty, `shift()` the head request and
`_run` it (which immediately increments `activeCount` again). -/
def ConcurrencyManager.finish (m : ConcurrencyManager) : ConcurrencyManager :=
  match m.queue with
  | [] => { m with activeCount := m.activeCount - 1 }
  | _ :: rest => { m with activeCount := m.activeCount - 1 + 1, queue := rest }

/-- Admission-controller states reachable cooperatively from a fresh manager,
pairing the manager with the arrival counter `nextSeq` that numbers incoming
submissions in order. -/
structure CMState where
  cm : ConcurrencyManager
  nextSeq : Nat

/-- Reachability: start from `new ConcurrencyManager(mc, ql)`; a step is
either a submission (`execute` with the next arrival number) or a running
operation finishing (`_run`'s `finally` block). -/
inductive CMReach : CMState → Prop where
  | init (mc ql : Nat) : CMReach ⟨ConcurrencyManager.init mc ql, 0⟩
  | submit (s : CMState) (p : Int) (h : CMReach s) :
      CMReach ⟨(s.cm.execute ⟨s.nextSeq, p⟩).2, s.nextSeq + 1⟩
  | release (s : CMState) (h : CMReach s) : CMReach ⟨s.cm.finish, s.nextSeq⟩

/-- The waiting queue is ordered: strictly higher priority first, and within
equal priority by arrival order (FIFO). -/
def queueOrdered (q : List Request) : Prop :=
  q.Pairwise fun a b => b.priority < a.priority ∨ (a.priority = b.priority ∧ a.seq < b.seq)

/-- Weak ordering by descending priority. -/
def priorityDesc (q : List Request) : Prop :=
  q.Pairwise fun a b => b.priority ≤ a.priority

lemma queueOrdered.priorityDesc {q : List Request} (h : queueOrdered q) :
    priorityDesc q := by
  refine List.Pairwise.imp ?_ h
  rintro a b (hlt | ⟨heq, _⟩)
  · exact le_of_lt hlt
  · exact le_of_eq heq.symm

lemma length_insertReq (q : List Request) (x : Request) :
    (insertReq q x).length = q.length + 1 := by
  induction q with
  | nil => rfl
  | cons y ys ih =>
      by_cases hy : y.priority < x.priority
      · simp [insertReq, hy]
      · simp [insertReq, hy, ih]

lemma length_foldl_insertReq (l acc : List Request) :
    (l.foldl insertReq acc).length = acc.length + l.length := by
  induction l generalizing acc with
  | nil => simp
  | cons z zs ih =>
      rw [List.foldl_cons, ih, length_insertReq]
      simp only [List.length_cons]
      omega

lemma length_sortByPriorityDesc (l : List Request) :
    (sortByPriorityDesc l).length = l.length := by
  simpa [sortByPriorityDesc] using length_foldl_insertReq l []

lemma mem_insertReq {a x : Request} {q : List Request} :
    a ∈ insertReq q x ↔ a ∈ q ∨ a = x := by
  induction q with
  | nil => simp [insertReq]
  | cons y ys ih =>
      by_cases hy : y.priority < x.priority
      · simp [insertReq, hy]
        tauto
      · simp [insertReq, hy, ih]
        tauto

lemma insertReq_append_end {q : List Request} {x : Request}
    (h : ∀ y ∈ q, x.priority ≤ y.priority) : insertReq q x = q ++ [x] := by
  induction q with
  | nil => rfl
  | cons y ys ih =>
      have hy : ¬ y.priority < x.priority :=
        not_lt_of_le (h y (List.mem_cons_self y ys))
      simp only [insertReq, hy, if_false]
      rw [ih fun z hz => h z (List.mem_cons_of_mem y hz)]
      simp

lemma foldl_insertReq_sorted (l : List Request) :
    ∀ acc : List Request, priorityDesc (acc ++ l) → l.foldl insertReq acc = acc ++ l := by
  induction l with
  | nil => intro acc _; simp
  | cons z zs ih =>
      intro acc h
      have hz : ∀ y ∈ acc, z.priority ≤ y.priority := by
        intro y hy
        have := (List.pairwise_append.mp h).2.2 y hy z (List.mem_cons_self z zs)
        exact this
      rw [List.foldl_cons, insertReq_append_end hz, ih (acc ++ [z]) (by simpa using h)]
      simp

lemma sortByPriorityDesc_of_sorted {q : List Request} (h : priorityDesc q) :
    sortByPriorityDesc q = q := by
  simpa using foldl_insertReq_sorted q [] (by simpa using h)

lemma sortByPriorityDesc_append_single {q : List Request} (x : Request)
    (h : priorityDesc q) : sortByPriorityDesc (q ++ [x]) = insertReq q x := by
  unfold sortByPriorityDesc
  rw [List.foldl_append]
  simpa [sortByPriorityDesc] using
    congrArg (fun l => insertReq l x) (sortByPriorityDesc_of_sorted h)

lemma rel_priority_le {a b : Request}
    (h : b.priority < a.priority ∨ (a.priority = b.priority ∧ a.seq < b.seq)) :
    b.priority ≤ a.priority := by
  rcases h with hlt | ⟨heq, _⟩
  · exact le_of_lt hlt
  · exact le_of_eq heq.symm

lemma insertReq_ordered {q : List Request} {x : Request} (hq : queueOrdered q)
    (hseq : ∀ r ∈ q, r.priority = x.priority → r.seq < x.seq) :
    queueOrdered (insertReq q x) := by
  induction q with
  | nil => simp [insertReq, queueOrdered]
  | cons y ys ih =>
      have hyys := (List.pairwise_cons.mp hq)
      by_cases hy : y.priority < x.priority
      · simp only [insertReq, hy, if_true]
        refine List.pairwise_cons.mpr ⟨?_, hq⟩
        intro z hz
        rcases List.mem_cons.mp hz with rfl | hzys
        · exact Or.inl hy
        · exact Or.inl (lt_of_le_of_lt (rel_priority_le (hyys.1 z hzys)) hy)
      · simp only [insertReq, hy, if_false]
        refine List.pairwise_cons.mpr ⟨?_, ?_⟩
        · intro z hz
          rcases mem_insertReq.mp hz with hzys | rfl
          · exact hyys.1 z hzys
          · rcases lt_or_eq_of_le (not_lt.mp hy) with hlt | heq
            · exact Or.inl hlt
            · exact Or.inr ⟨heq.symm,
                hseq y (List.mem_cons_self y ys) heq.symm⟩
        · exact ih hyys.2 fun r hr => hseq r (List.mem_cons_of_mem y hr)

/-- Invariant of reachable admission-controller states: every queued request
arrived before the current arrival counter, and the queue is ordered by
strictly descending priority with FIFO ties. -/
lemma CMReach.queue_state_invariant (s : CMState) (h : CMReach s) :
    (∀ r ∈ s.cm.queue, r.seq < s.nextSeq) ∧ queueOrdered s.cm.queue := by
  induction h with
  | init mc ql => simp [ConcurrencyManager.init, queueOrdered]
  | submit s p h ih =>
      by_cases hcap : s.cm.maxConcurrent ≤ s.cm.activeCount
      · by_cases hql : s.cm.queueLimit ≤ s.cm.queue.length
        · simp only [ConcurrencyManager.execute, hcap, hql, if_true]
          exact ⟨fun r hr => Nat.lt_succ_of_lt (ih.1 r hr), ih.2⟩
        · simp only [ConcurrencyManager.execute, hcap, hql, if_true, if_false]
          rw [sortByPriorityDesc_append_single _ ih.2.priorityDesc]
          constructor
          · intro r hr
            rcases mem_insertReq.mp hr with hrq | rfl
            · exact Nat.lt_succ_of_lt (ih.1 r hrq)
            · exact Nat.lt_succ_self _
          · exact insertReq_ordered ih.2 fun r hr _ => ih.1 r hr
      · simp only [ConcurrencyManager.execute, hcap, if_false]
        exact ⟨fun r hr => Nat.lt_succ_of_lt (ih.1 r hr), ih.2⟩
  | release s h ih =>
      rcases hq : s.cm.queue with _ | ⟨y, rest⟩
      · simp only [ConcurrencyManager.finish, hq]
        exact ⟨by simp, List.Pairwise.nil⟩
      · simp only [ConcurrencyManager.finish, hq]
        have ih1 := ih.1
        have ih2 := ih.2
        rw [hq] at ih1 ih2
        exact ⟨fun r hr => ih1 r (List.mem_cons_of_mem y hr),
          (List.pairwise_cons.mp ih2).2⟩

/-! ## Task processor (`class AsyncProcessingSystem`) -/

/-- A `PendingTask` record `{ taskId, taskData, priority }`.  Task ids are
`task_${Date.now()}_${random}` strings in the source; they are modeled as
`Nat`, fresh ids being supplied as parameters. -/
structure TaskRecord where
  taskId : Nat
  taskData : String
  priority : Int
deriving DecidableEq, Repr

/-- Lifecycle events emitted by `AsyncProcessingSystem` (`this.emit(...)`). -/
inductive PEvent where
  | taskQueued (taskId : Nat)
  | taskCompleted (taskId : Nat)
  | taskFailed (taskId : Nat)
deriving DecidableEq, Repr

/-- Errors surfaced by `processTask`: the admission controller's
`Error("Task queue limit reached")`, or the failure of the task execution
itself (which includes `Error("Circuit breaker is OPEN")`). -/
inductive PError where
  | queueFull
  | execFailed (msg : String)
deriving DecidableEq, Repr

/-- State of `AsyncProcessingSystem` relevant to the claims:
`this.concurrencyManager`, `this.circuitBreaker`, `this.pendingTasks`
(in-memory), and the contents of the `pendingTasks.json` backing file written
by `saveTasks` (`store`). -/
structure PSystem where
  cm : ConcurrencyManager
  breaker : CircuitBreaker
  pendingTasks : List TaskRecord
  store : List TaskRecord
deriving DecidableEq, Repr

/-- `AsyncProcessingSystem.processTask(taskData, priority, isRecovered)` with
the freshly generated task id passed as `taskId` and the eventual outcome of
`executeTask` passed as `execResult`.  Mirrors the source line by line:
unless recovered, push the record and `saveTasks`; emit `taskQueued`; submit
through `concurrencyManager.execute`, whose synchronous `QueueFull` rejection
happens exactly when `activeCount >= maxConcurrent` and
`queue.length >= queueLimit`; on success filter the record out by id,
`saveTasks`, emit `taskCompleted` and return the result; on any failure emit
`taskFailed` and rethrow.  (The concurrency manager's own counter/queue
transitions are modeled separately by `ConcurrencyManager.execute` /
`ConcurrencyManager.finish`.) -/
def AsyncProcessingSystem.processTask (sys : PSystem) (taskId : Nat)
    (taskData : String) (priority : Int) (isRecovered : Bool)
    (execResult : Except String α) :
    Except PError α × PSystem × List PEvent :=
  let task : TaskRecord := ⟨taskId, taskData, priority⟩
  let sys1 :=
    if isRecovered then sys
    else
      let p := sys.pendingTasks ++ [task]
      { sys with pendingTasks := p, store := p }
  if sys1.cm.maxConcurrent ≤ sys1.cm.activeCount ∧
      sys1.cm.queueLimit ≤ sys1.cm.queue.length then
    (.error .queueFull, sys1, [.taskQueued taskId, .taskFailed taskId])
  else
    match execResult with
    | .ok r =>
        let p := sys1.pendingTasks.filter fun t => t.taskId ≠ taskId
        (.ok r, { sys1 with pendingTasks := p, store := p },
          [.taskQueued taskId, .taskCompleted taskId])
    | .error e =>
        (.error (.execFailed e), sys1, [.taskQueued taskId, .taskFailed taskId])

/-- Loop body of `AsyncProcessingSystem.recoverTasks`: iterate over the
snapshot of `this.pendingTasks` taken when the `for...of` loop starts,
resubmitting each record via `processTask(task.taskData, task.priority, true)`
and catching (logging) any rejection so it never escapes the loop.  `freshId i`
is the task id generated for the `i`-th resubmission and `results i` the
eventual outcome of its execution. -/
def AsyncProcessingSystem.recoverLoop (sys : PSystem) (snapshot : List TaskRecord)
    (i : Nat) (freshId : Nat → Nat) (results : Nat → Except String Nat) :
    PSystem × List (Except PError Nat) :=
  match snapshot with
  | [] => (sys, [])
  | t :: rest =>
      let out := AsyncProcessingSystem.processTask sys (freshId i) t.taskData
        t.priority true (results i)
      let next := AsyncProcessingSystem.recoverLoop out.2.1 rest (i + 1) freshId results
      (next.1, out.1 :: next.2)

/-- `AsyncProcessingSystem.recoverTasks()`: resubmit every record currently in
`this.pendingTasks`, with per-task `.catch` so a failure is logged rather than
escalated.  Returns the final system state and the caught outcome of each of
the attempted resubmissions, in order. -/
def AsyncProcessingSystem.recoverTasks (sys : PSystem) (freshId : Nat → Nat)
    (results : Nat → Except String Nat) : PSystem × List (Except PError Nat) :=
  AsyncProcessingSystem.recoverLoop sys sys.pendingTasks 0 freshId results

/-- Constructor options object of `AsyncProcessingSystem` (the spec's
configuration surface; absent properties are `none`). -/
structure SystemOptions where
  maxConcurrent : Option Nat := none
  queueLimit : Option Nat := none
  failureThreshold : Option Nat := none
  recoveryTime : Option Nat := none
deriving DecidableEq, Repr

/-- JavaScript `a || d` for an optional numeric property: the default is used
when the property is absent or falsy (`0`). -/
def jsOrDefault (o : Option Nat) (d : Nat) : Nat :=
  match o with
  | none => d
  | some v => if v = 0 then d else v

/-- `new AsyncProcessingSystem(options)` at time `now`, with `loadTasks()`
returning `loaded`: builds
`new ConcurrencyManager(options.maxConcurrent || 10, options.queueLimit || 1000)`
and `new CircuitBreaker()` — the source passes no arguments to the breaker, so
its constructor defaults `failureThreshold = 5`, `recoveryTime = 5000` always
apply.  (`recoverTasks()` is invoked afterwards; it is modeled separately.) -/
def AsyncProcessingSystem.mk (options : SystemOptions) (now : Nat)
    (loaded : List TaskRecord) : PSystem :=
  { cm := ConcurrencyManager.init (jsOrDefault options.maxConcurrent 10)
      (jsOrDefault options.queueLimit 1000)
    breaker := CircuitBreaker.init 5 5000 now
    pendingTasks := loaded
    store := loaded }

/-! ## Metrics (`AsyncProcessingSystem.getSystemMetrics`) -/

/-- JavaScript division of two non-negative counters: `none` when the
denominator is `0` (the source produces the non-finite `NaN` or `Infinity`),
otherwise the exact quotient. -/
def jsDivNat (a b : Nat) : Option ℚ :=
  if b = 0 then none else some ((a : ℚ) / (b : ℚ))

/-- The `errorRate` field computed by `getSystemMetrics()`:
`this.metrics.totalErrors / (this.metrics.totalProcessed + this.metrics.totalErrors)`,
unguarded. -/
def errorRate (totalProcessed totalErrors : Nat) : Option ℚ :=
  jsDivNat totalErrors (totalProcessed + totalErrors)

/-- Modelled from the spec: the intended error rate, `totalErrors /
(totalProcessed + totalErrors)` "defined as 0 when the denominator is 0" —
the guard is present in the spec but missing from the source. -/
def errorRateSpec (totalProcessed totalErrors : Nat) : ℚ :=
  if totalProcessed + totalErrors = 0 then 0
  else (totalErrors : ℚ) / ((totalProcessed : ℚ) + (totalErrors : ℚ))

/-! ## Claim theorems -/

/-- C7: a submission raises `QueueFull` iff the running count is at least
`maxConcurrent` and the waiting queue already holds `queueLimit` entries;
below the cap the operation starts immediately (incrementing the running
count); at the cap with a non-full queue the request is enqueued without
error; and with the running count at `maxConcurrent = C` and the queue at
`queueLimit = Q`, the (C+Q+1)-th submission is rejected with `QueueFull`,
leaving the controller unchanged. -/
theorem admission_queueFull_iff (m : ConcurrencyManager) (x : Request) :
    ((m.execute x).1 = .queueFull ↔
      m.maxConcurrent ≤ m.activeCount ∧ m.queueLimit ≤ m.queue.length) ∧
    (m.activeCount < m.maxConcurrent →
      m.execute x = (.started, { m with activeCount := m.activeCount + 1 })) ∧
    (m.maxConcurrent ≤ m.activeCount → m.queue.length < m.queueLimit →
      (m.execute x).1 = .enqueued) ∧
    (m.activeCount = m.maxConcurrent → m.queue.length = m.queueLimit →
      (m.execute x).1 = .queueFull ∧ (m.execute x).2 = m) := by
  by_cases hcap : m.maxConcurrent ≤ m.activeCount
  · by_cases hql : m.queueLimit ≤ m.queue.length
    · refine ⟨by simp [ConcurrencyManager.execute, hcap, hql], ?_, ?_, ?_⟩
      · intro h; omega
      · intro _ h; omega
      · intro _ _; simp [ConcurrencyManager.execute, hcap, hql]
    · refine ⟨by simp [ConcurrencyManager.execute, hcap, hql], ?_, ?_, ?_⟩
      · intro h; omega
      · intro _ _; simp [ConcurrencyManager.execute, hcap, hql]
      · intro _ hq; omega
  · refine ⟨by simp [ConcurrencyManager.execute, hcap], ?_, ?_, ?_⟩
    · intro _; simp [ConcurrencyManager.execute, hcap]
    · intro h; omega
    · intro h _; omega

/-- C7 witness: with 1 task running, `maxConcurrent = 1` and a full
single-slot queue, the next submission is rejected with `QueueFull`; a fresh
controller starts the first submission immediately. -/
theorem admission_queueFull_iff_witness :
    ((ConcurrencyManager.mk 1 1 1 [⟨0, 0⟩]).execute ⟨1, 0⟩).1 = .queueFull ∧
    (ConcurrencyManager.mk 1 1 0 []).execute ⟨0, 0⟩ =
      (.started, ConcurrencyManager.mk 1 1 1 []) := by
  constructor
  · exact ((admission_queueFull_iff (ConcurrencyManager.mk 1 1 1 [⟨0, 0⟩]) ⟨1, 0⟩).2.2.2
      rfl rfl).1
  · exact (admission_queueFull_iff (ConcurrencyManager.mk 1 1 0 []) ⟨0, 0⟩).2.1
      (by decide)

/-- C10: in the cooperative single-scheduler model, both a submission
(`execute`) and a completion (`_run`'s `finally` block) preserve the bounds
`activeCount ≤ maxConcurrent` (given `maxConcurrent ≥ 1`) and
`queue.length ≤ queueLimit`. -/
theorem admission_bounds_preserved (m : ConcurrencyManager) (x : Request)
    (hmax : 1 ≤ m.maxConcurrent) (ha : m.activeCount ≤ m.maxConcurrent)
    (hq : m.queue.length ≤ m.queueLimit) :
    ((m.execute x).2.activeCount ≤ (m.execute x).2.maxConcurrent ∧
      (m.execute x).2.queue.length ≤ (m.execute x).2.queueLimit) ∧
    (m.finish.activeCount ≤ m.finish.maxConcurrent ∧
      m.finish.queue.length ≤ m.finish.queueLimit) := by
  constructor
  · by_cases hcap : m.maxConcurrent ≤ m.activeCount
    · by_cases hql : m.queueLimit ≤ m.queue.length
      · simpa [ConcurrencyManager.execute, hcap, hql] using ⟨ha, hq⟩
      · simp only [ConcurrencyManager.execute, hcap, hql, if_true, if_false]
        refine ⟨ha, ?_⟩
        rw [length_sortByPriorityDesc]
        simp only [List.length_append, List.length_singleton]
        omega
    · simp only [ConcurrencyManager.execute, hcap, if_false]
      exact ⟨by omega, hq⟩
  · rcases hqe : m.queue with _ | ⟨y, rest⟩
    · simp only [ConcurrencyManager.finish, hqe]
      exact ⟨by omega, by simp [hqe] at hq; simp [hq]⟩
    · simp only [ConcurrencyManager.finish, hqe]
      constructor
      · omega
      · rw [hqe] at hq
        simp only [List.length_cons] at hq
        omega

/-- C10 witness: the bounds are preserved at a concrete controller with one
slot free and one queue slot free. -/
theorem admission_bounds_preserved_witness :
    (1 ≤ (ConcurrencyManager.mk 2 1 1 []).maxConcurrent) ∧
    ((((ConcurrencyManager.mk 2 1 1 []).execute ⟨0, 3⟩).2.activeCount ≤
        ((ConcurrencyManager.mk 2 1 1 []).execute ⟨0, 3⟩).2.maxConcurrent ∧
      ((ConcurrencyManager.mk 2 1 1 []).execute ⟨0, 3⟩).2.queue.length ≤
        ((ConcurrencyManager.mk 2 1 1 []).execute ⟨0, 3⟩).2.queueLimit) ∧
     ((ConcurrencyManager.mk 2 1 1 []).finish.activeCount ≤
        (ConcurrencyManager.mk 2 1 1 []).finish.maxConcurrent ∧
      (ConcurrencyManager.mk 2 1 1 []).finish.queue.length ≤
        (ConcurrencyManager.mk 2 1 1 []).finish.queueLimit)) :=
  ⟨by decide,
    admission_bounds_preserved (ConcurrencyManager.mk 2 1 1 []) ⟨0, 3⟩
      (by decide) (by decide) (by decide)⟩

/-- C5: in every reachable admission-controller state the waiting queue is
ordered so that strictly higher priority comes first and equal priorities
keep FIFO arrival order; consequently (index form) a waiting request of
strictly higher priority sits closer to the head — and is therefore granted
a slot first, since grants always `shift()` the head — and among
equal-priority waiters the queue position order coincides with arrival
order. -/
theorem waiting_queue_priority_order (s : CMState) (h : CMReach s) :
    queueOrdered s.cm.queue ∧
    ∀ i j : Nat, ∀ hi : i < s.cm.queue.length, ∀ hj : j < s.cm.queue.length,
      ((s.cm.queue.get ⟨i, hi⟩).priority < (s.cm.queue.get ⟨j, hj⟩).priority →
        j < i) ∧
      ((s.cm.queue.get ⟨i, hi⟩).priority = (s.cm.queue.get ⟨j, hj⟩).priority →
        i < j →
        (s.cm.queue.get ⟨i, hi⟩).seq < (s.cm.queue.get ⟨j, hj⟩).seq) := by
  have hord := (CMReach.queue_state_invariant s h).2
  refine ⟨hord, ?_⟩
  have hpair := List.pairwise_iff_get.mp hord
  intro i j hi hj
  constructor
  · intro hlt
    rcases Nat.lt_trichotomy i j with hij | hij | hij
    · rcases hpair ⟨i, hi⟩ ⟨j, hj⟩ hij with hc | ⟨hc, _⟩
      · exact absurd hlt (not_lt_of_lt hc)
      · exact absurd hlt (by rw [hc]; exact lt_irrefl _)
    · subst hij
      exact absurd hlt (lt_irrefl _)
    · exact hij
  · intro heq hij
    rcases hpair ⟨i, hi⟩ ⟨j, hj⟩ hij with hc | ⟨_, hc⟩
    · exact absurd hc (by rw [heq]; exact lt_irrefl _)
    · exact hc

/-- C5 witness: submit priorities 0, 0, 5 to a single-slot controller; the
reachable queue holds the later priority-5 arrival ahead of the earlier
priority-0 waiter, and the invariant holds there. -/
theorem waiting_queue_priority_order_witness :
    queueOrdered [Request.mk 2 5, Request.mk 1 0] := by
  have h : CMReach ⟨⟨1, 10, 1, [⟨2, 5⟩, ⟨1, 0⟩]⟩, 3⟩ :=
    CMReach.submit ⟨⟨1, 10, 1, [⟨1, 0⟩]⟩, 2⟩ 5
      (CMReach.submit ⟨⟨1, 10, 1, []⟩, 1⟩ 0
        (CMReach.submit ⟨⟨1, 10, 0, []⟩, 0⟩ 0 (CMReach.init 1 10)))
  exact (waiting_queue_priority_order _ h).1

/-- Shared helper: any call reaching an `OPEN` breaker at or before
`nextAttempt` is rejected without invoking the operation and without touching
the breaker's state or counters. -/
lemma CircuitBreaker.execute_rejects_open {α : Type} (cb : CircuitBreaker)
    (now : Nat) (op : Except String α) (hop : cb.state = .OPEN)
    (hle : now ≤ cb.nextAttempt) :
    cb.execute now op = ⟨.circuitOpen, cb, false⟩ := by
  simp [CircuitBreaker.execute, hop, hle]

/-- C4: starting from a fresh breaker, `failureThreshold` consecutive
failures leave the state `OPEN`; and any call on any `OPEN` breaker strictly
before `nextAttemptTime` fails with `CircuitOpen`, does not invoke the
wrapped operation (`invoked = false`), and leaves the breaker — state,
failure counter and `nextAttempt` — unchanged. -/
theorem breaker_opens_then_rejects_unchanged (ft rt t0 t : Nat) (hft : 1 ≤ ft) :
    (CircuitBreaker.failN t ft (CircuitBreaker.init ft rt t0)).state = .OPEN ∧
    ∀ (cb : CircuitBreaker) (now : Nat) (α : Type) (op : Except String α),
      cb.state = .OPEN → now < cb.nextAttempt →
        cb.execute now op = ⟨.circuitOpen, cb, false⟩ := by
  constructor
  · rw [CircuitBreaker.failN_opens ft rt t0 t hft]
  · intro cb now α op hop hlt
    exact CircuitBreaker.execute_rejects_open cb now op hop (le_of_lt hlt)

/-- C4 witness: threshold 2, recovery 100, failures at time 10 open the
breaker (`nextAttempt = 110`); a call at time 50 is rejected with the breaker
unchanged and the operation not invoked. -/
theorem breaker_opens_then_rejects_unchanged_witness :
    (CircuitBreaker.failN 10 2 (CircuitBreaker.init 2 100 0)).state = .OPEN ∧
    (CircuitBreaker.failN 10 2 (CircuitBreaker.init 2 100 0)).execute 50
        (Except.ok (0 : Nat)) =
      ⟨.circuitOpen, CircuitBreaker.failN 10 2 (CircuitBreaker.init 2 100 0),
        false⟩ := by
  have h := breaker_opens_then_rejects_unchanged 2 100 0 10 (by decide)
  exact ⟨h.1, h.2 _ 50 Nat (Except.ok 0) h.1 (by decide)⟩

/-- C6: on a reachable `OPEN` breaker, a call arriving after `nextAttemptTime`
is the half-open probe: the wrapped operation is invoked; a successful probe
resets the breaker to `CLOSED` with `failureCount = 0`, and a failing probe
increments `failureCount` and returns the breaker to `OPEN` with
`nextAttemptTime` recomputed as the current time plus `recoveryTime`. -/
theorem breaker_halfopen_probe (cb : CircuitBreaker) (h : BReach cb) (now : Nat)
    (hopen : cb.state = .OPEN) (hprobe : cb.nextAttempt < now) :
    ∀ (r : Nat) (e : String),
      cb.execute now (Except.ok r : Except String Nat) =
        ⟨.ok r, ⟨cb.failureThreshold, cb.recoveryTime, 0, .CLOSED, cb.nextAttempt⟩,
          true⟩ ∧
      cb.execute now (Except.error e : Except String Nat) =
        ⟨.opFailed e, ⟨cb.failureThreshold, cb.recoveryTime, cb.failures + 1,
          .OPEN, now + cb.recoveryTime⟩, true⟩ := by
  intro r e
  have hna : ¬ now ≤ cb.nextAttempt := not_le_of_lt hprobe
  have hthr : cb.failureThreshold ≤ cb.failures := (BReach.open_state_invariant cb h).2 hopen
  have hthr' : cb.failureThreshold ≤ cb.failures + 1 := Nat.le_succ_of_le hthr
  constructor
  · simp [CircuitBreaker.execute, hopen, hna, CircuitBreaker.reset]
  · simp [CircuitBreaker.execute, hopen, hna, CircuitBreaker.recordFail, hthr']

/-- C6 witness: a breaker with threshold 1 opened by one failure at time 5
(`nextAttempt = 105`) is probed at time 200: a successful probe closes it and
zeroes the counter; a failing probe re-opens it with counter 2 and
`nextAttempt = 300`. -/
theorem breaker_halfopen_probe_witness :
    CircuitBreaker.execute ⟨1, 100, 1, .OPEN, 105⟩ 200
        (Except.ok 7 : Except String Nat) =
      ⟨.ok 7, ⟨1, 100, 0, .CLOSED, 105⟩, true⟩ ∧
    CircuitBreaker.execute ⟨1, 100, 1, .OPEN, 105⟩ 200
        (Except.error "External service error" : Except String Nat) =
      ⟨.opFailed "External service error", ⟨1, 100, 2, .OPEN, 300⟩, true⟩ := by
  have hreach : BReach ⟨1, 100, 1, .OPEN, 105⟩ :=
    BReach.step (CircuitBreaker.init 1 100 0) 5 (Except.error "boom")
      (BReach.init 1 100 0)
  have h := breaker_halfopen_probe _ hreach 200 rfl (by decide) 7
    "External service error"
  exact ⟨h.1, h.2⟩

/-- C8 counterexample: constructing the processing system with
`failureThreshold = 2` and `recoveryTime = 99` still yields a breaker with
`failureThreshold = 5` (not the configured 2), and after 2 consecutive
failures the breaker is still `CLOSED` — the configured values are not
honored. -/
theorem system_ignores_breaker_options :
    (AsyncProcessingSystem.mk
        { failureThreshold := some 2, recoveryTime := some 99 } 0
        []).breaker.failureThreshold = 5 ∧
    ¬ (AsyncProcessingSystem.mk
        { failureThreshold := some 2, recoveryTime := some 99 } 0
        []).breaker.failureThreshold = 2 ∧
    (CircuitBreaker.failN 0 2 (AsyncProcessingSystem.mk
        { failureThreshold := some 2, recoveryTime := some 99 } 0
        []).breaker).state = .CLOSED := by
  decide

/-- C8 (amended): the processing system's breaker always carries the
`CircuitBreaker` constructor defaults `failureThreshold = 5` and
`recoveryTime = 5000` — `options.failureThreshold` and `options.recoveryTime`
are ignored — so it opens after 5 consecutive failures, sets `nextAttempt`
5000 ms ahead, and rejects every call before that without invoking the
operation. -/
theorem system_breaker_uses_defaults (options : SystemOptions) (now t : Nat)
    (loaded : List TaskRecord) :
    (AsyncProcessingSystem.mk options now loaded).breaker.failureThreshold = 5 ∧
    (AsyncProcessingSystem.mk options now loaded).breaker.recoveryTime = 5000 ∧
    (CircuitBreaker.failN t 5
      (AsyncProcessingSystem.mk options now loaded).breaker).state = .OPEN ∧
    (CircuitBreaker.failN t 5
      (AsyncProcessingSystem.mk options now loaded).breaker).nextAttempt =
        t + 5000 ∧
    ∀ (now' : Nat) (α : Type) (op : Except String α), now' < t + 5000 →
      (CircuitBreaker.failN t 5
          (AsyncProcessingSystem.mk options now loaded).breaker).execute now' op =
        ⟨.circuitOpen,
          CircuitBreaker.failN t 5
            (AsyncProcessingSystem.mk options now loaded).breaker, false⟩ := by
  have hmk : (AsyncProcessingSystem.mk options now loaded).breaker =
      CircuitBreaker.init 5 5000 now := rfl
  rw [hmk, CircuitBreaker.failN_opens 5 5000 now t (by norm_num)]
  refine ⟨rfl, rfl, rfl, rfl, ?_⟩
  intro now' α op hlt
  exact CircuitBreaker.execute_rejects_open _ now' op rfl (le_of_lt hlt)

/-- C8 amended witness: with no options, after 5 failures at time 0 the
breaker is `OPEN` with `nextAttempt = 5000`, and a call at time 4999 is
rejected without invoking the operation. -/
theorem system_breaker_uses_defaults_witness :
    (AsyncProcessingSystem.mk {} 0 []).breaker.failureThreshold = 5 ∧
    (CircuitBreaker.failN 0 5 (AsyncProcessingSystem.mk {} 0 []).breaker).state =
      .OPEN ∧
    (CircuitBreaker.failN 0 5 (AsyncProcessingSystem.mk {} 0 []).breaker).execute
        4999 (Except.ok (1 : Nat)) =
      ⟨.circuitOpen,
        CircuitBreaker.failN 0 5 (AsyncProcessingSystem.mk {} 0 []).breaker,
        false⟩ := by
  have h := system_breaker_uses_defaults {} 0 0 []
  exact ⟨h.1, h.2.2.1, h.2.2.2.2 4999 Nat (Except.ok 1) (by decide)⟩

/-- C1 counterexample: a system with `maxConcurrent = 1`, `queueLimit = 0`,
one task running and an empty store rejects the next submission with
`QueueFull` — yet after `processTask` returns, the store *does* hold the
`PendingTask` record of the rejected task (it was persisted before admission
and is not removed on rejection), contradicting the claim that the task is
never persisted as started. -/
theorem queueFull_record_remains_counterexample :
    (AsyncProcessingSystem.processTask
        ⟨⟨1, 0, 1, []⟩, ⟨5, 5000, 0, .CLOSED, 0⟩, [], []⟩ 7 "payload" 0 false
        (Except.ok (0 : Nat))).1 = .error .queueFull ∧
    TaskRecord.mk 7 "payload" 0 ∈
      (AsyncProcessingSystem.processTask
        ⟨⟨1, 0, 1, []⟩, ⟨5, 5000, 0, .CLOSED, 0⟩, [], []⟩ 7 "payload" 0 false
        (Except.ok (0 : Nat))).2.1.store :=
  ⟨rfl, List.mem_singleton.mpr rfl⟩

/-- C1 (amended): when admission is denied because the running count is at
the cap and the waiting queue is at capacity, the `QueueFull` error is
surfaced synchronously to the submitter — but the task record of a
non-recovered submission, persisted before admission was attempted, remains
in the store after the rejection (eligible for a later recovery pass). -/
theorem queueFull_synchronous_record_persisted (sys : PSystem) (taskId : Nat)
    (taskData : String) (priority : Int) (α : Type)
    (execResult : Except String α)
    (hcap : sys.cm.maxConcurrent ≤ sys.cm.activeCount)
    (hql : sys.cm.queueLimit ≤ sys.cm.queue.length) :
    (AsyncProcessingSystem.processTask sys taskId taskData priority false
      execResult).1 = .error .queueFull ∧
    (AsyncProcessingSystem.processTask sys taskId taskData priority false
      execResult).2.1.store =
        sys.pendingTasks ++ [⟨taskId, taskData, priority⟩] := by
  simp [AsyncProcessingSystem.processTask, hcap, hql]

/-- C1 amended witness: the amended behavior at the concrete rejected
submission. -/
theorem queueFull_synchronous_record_persisted_witness :
    (AsyncProcessingSystem.processTask
        ⟨⟨1, 0, 1, []⟩, ⟨5, 5000, 0, .CLOSED, 0⟩, [], []⟩ 7 "payload2" 0 false
        (Except.ok (0 : Nat))).1 = .error .queueFull ∧
    (AsyncProcessingSystem.processTask
        ⟨⟨1, 0, 1, []⟩, ⟨5, 5000, 0, .CLOSED, 0⟩, [], []⟩ 7 "payload2" 0 false
        (Except.ok (0 : Nat))).2.1.store = [TaskRecord.mk 7 "payload2" 0] :=
  queueFull_synchronous_record_persisted
    ⟨⟨1, 0, 1, []⟩, ⟨5, 5000, 0, .CLOSED, 0⟩, [], []⟩ 7 "payload2" 0 Nat
    (Except.ok 0) (by decide) (by decide)

/-- C2 (code bug): a recovery replay (`isRecovered = true`) of the record
`{taskId 1}` succeeds (returns its result and emits `taskCompleted`), but the
store still holds the old record afterwards: `processTask` generated the
fresh id 2 for the replay and `filter((t) => t.taskId !== taskId)` removes
records with the *new* id, never the recovered record's old id.  The spec's
"removes the `PendingTask` record from the store" fails for recovered
tasks. -/
theorem recovered_success_leaves_stale_record :
    (AsyncProcessingSystem.processTask
        ⟨⟨2, 10, 0, []⟩, ⟨5, 5000, 0, .CLOSED, 0⟩, [⟨1, "a", 0⟩], [⟨1, "a", 0⟩]⟩
        2 "a" 0 true (Except.ok (42 : Nat))).1 = Except.ok 42 ∧
    (AsyncProcessingSystem.processTask
        ⟨⟨2, 10, 0, []⟩, ⟨5, 5000, 0, .CLOSED, 0⟩, [⟨1, "a", 0⟩], [⟨1, "a", 0⟩]⟩
        2 "a" 0 true (Except.ok (42 : Nat))).2.2 =
      [.taskQueued 2, .taskCompleted 2] ∧
    (AsyncProcessingSystem.processTask
        ⟨⟨2, 10, 0, []⟩, ⟨5, 5000, 0, .CLOSED, 0⟩, [⟨1, "a", 0⟩], [⟨1, "a", 0⟩]⟩
        2 "a" 0 true (Except.ok (42 : Nat))).2.1.store = [⟨1, "a", 0⟩] :=
  ⟨rfl, rfl, rfl⟩

/-- C3 (code bug): `getSystemMetrics` computes the error rate as the
unguarded quotient `totalErrors / (totalProcessed + totalErrors)`; at the
zero denominator (`totalProcessed = totalErrors = 0`) the source produces no
finite value (`0/0` is `NaN` in JavaScript, modeled `none`) instead of the 0
the spec defines, while the spec-modelled guarded definition yields 0.  For a
non-zero denominator the source matches the claimed formula. -/
theorem errorRate_zero_denominator_nan :
    errorRate 0 0 = none ∧
    errorRateSpec 0 0 = 0 ∧
    errorRate 1 3 = some ((3 : ℚ) / 4) ∧
    errorRateSpec 1 3 = (3 : ℚ) / 4 := by
  refine ⟨rfl, rfl, ?_, ?_⟩
  · norm_num [errorRate, jsDivNat]
  · norm_num [errorRateSpec]

/-- Shared helper: the recovery loop attempts one resubmission per snapshot
record, whatever the individual outcomes are. -/
lemma recoverLoop_length (snapshot : List TaskRecord) :
    ∀ (sys : PSystem) (i : Nat) (freshId : Nat → Nat)
      (results : Nat → Except String Nat),
      (AsyncProcessingSystem.recoverLoop sys snapshot i freshId
        results).2.length = snapshot.length := by
  induction snapshot with
  | nil => intro sys i freshId results; rfl
  | cons t rest ih =>
      intro sys i freshId results
      simp [AsyncProcessingSystem.recoverLoop, ih]

/-- C9: with N pending records in the store at startup, the recovery pass
attempts exactly N resubmissions (each via `processTask(..., true)` and
individually caught), and the number of attempts does not depend on which
resubmissions fail — a failing resubmission never blocks the remaining
ones. -/
theorem recovery_attempts_every_record (sys : PSystem) (freshId : Nat → Nat)
    (results otherResults : Nat → Except String Nat) :
    (AsyncProcessingSystem.recoverTasks sys freshId results).2.length =
      sys.pendingTasks.length ∧
    (AsyncProcessingSystem.recoverTasks sys freshId results).2.length =
      (AsyncProcessingSystem.recoverTasks sys freshId otherResults).2.length := by
  unfold AsyncProcessingSystem.recoverTasks
  constructor
  · exact recoverLoop_length sys.pendingTasks sys 0 freshId results
  · rw [recoverLoop_length sys.pendingTasks sys 0 freshId results,
      recoverLoop_length sys.pendingTasks sys 0 freshId otherResults]
